import Mathlib

/-!
Verification of the H4x image-editor core: the payload encoder
(`fileToGenerativePart` in `src/utils/fileUtils.ts`) and the edit
orchestrator (`handleGenerate` / `handleDownload` in the main view
component).  JavaScript strings are modelled as `List Char`; the
DOM `FileReader` and the remote service are modelled by explicit
outcome values.
-/

deriving instance DecidableEq for Except

namespace H4x

/-- JavaScript strings, modelled as lists of characters. -/
abbrev Str := List Char

/-- JS `String.prototype.split` with a single-character separator:
splits on every occurrence of `sep`; the result is never empty, and
empty fields are kept (`"a,".split(',') = ["a",""]`). -/
def jsSplit (sep : Char) : Str → List Str
  | [] => [[]]
  | c :: cs =>
    if c = sep then [] :: jsSplit sep cs
    else (c :: (jsSplit sep cs).headD []) :: (jsSplit sep cs).tail

/-- The substring strictly after the first occurrence of `sep`,
or `none` when `sep` does not occur. -/
def afterFirst (sep : Char) : Str → Option Str
  | [] => none
  | c :: cs => if c = sep then some cs else afterFirst sep cs

/-- The substring strictly before the first occurrence of `sep`,
or `none` when `sep` does not occur. -/
def upToFirst (sep : Char) : Str → Option Str
  | [] => none
  | c :: cs => if c = sep then some [] else (upToFirst sep cs).map (c :: ·)

/-- The substring before the first occurrence of `sep`, or the whole
string when `sep` does not occur. -/
def upToFirstOrAll (sep : Char) (s : Str) : Str :=
  (upToFirst sep s).getD s

/-- The characters a JS regex `.` does not match: line terminators. -/
def isLineTerminator (c : Char) : Bool :=
  c = Char.ofNat 10 || c = Char.ofNat 13 ||
  c = Char.ofNat 0x2028 || c = Char.ofNat 0x2029

/-- One attempt of the lazy capture `(.*?);` of the regex `/:(.*?);/`
starting right after a `:`: collect characters until the next `;`
(success) and abort on a line terminator (JS `.` does not cross one). -/
def scanCapture : Str → Option Str
  | [] => none
  | c :: cs =>
    if c = ';' then some []
    else if isLineTerminator c then none
    else (scanCapture cs).map (c :: ·)

/-- Capture group 1 of JS `header.match(/:(.*?);/)`: the leftmost `:`
from which the lazy capture reaches a `;` yields the shortest such
capture; if the scan from a `:` aborts, the engine restarts further
right. -/
def extractMime : Str → Option Str
  | [] => none
  | c :: cs =>
    if c = ':' then
      match scanCapture cs with
      | some cap => some cap
      | none => extractMime cs
    else extractMime cs

/-- Message of the rejection for a malformed data URL (comma split). -/
def invalidDataUrlMsg : String := "Invalid data URL format."

/-- Message of the rejection when no MIME type can be extracted. -/
def noMimeTypeMsg : String := "Could not extract MIME type from data URL."

/-- Message of the rejection when `reader.result` is not a string. -/
def failedReadMsg : String := "Failed to read file as data URL."

/-- The value resolved by the encoder: `{ mimeType, data }`. -/
structure GenerativePart where
  mimeType : Str
  data : Str
deriving DecidableEq

/-- The string-processing body of `fileToGenerativePart`'s `onload`
handler, given that `reader.result` is the string `result`:
`const [header, data] = result.split(',')`, reject with
`invalidDataUrlMsg` when `!header || !data` (undefined or empty),
then match `/:(.*?);/` against the header and reject with
`noMimeTypeMsg` when there is no match or the capture is empty. -/
def fileToGenerativePart (result : Str) : Except String GenerativePart :=
  match (jsSplit ',' result)[1]? with
  | none => .error invalidDataUrlMsg
  | some data =>
    if (jsSplit ',' result).headD [] = [] ∨ data = [] then
      .error invalidDataUrlMsg
    else
      match extractMime ((jsSplit ',' result).headD []) with
      | none => .error noMimeTypeMsg
      | some m =>
        if m = [] then .error noMimeTypeMsg
        else .ok ⟨m, data⟩

/-- Outcome of `reader.readAsDataURL(file)` as observed by the
promise executor: the `onload` handler fires with a string result,
fires with a non-string result, or `onerror` fires with a host
event (modelled as an opaque numeric identifier). -/
inductive ReadOutcome where
  | str (dataUrl : Str)
  | nonString
  | readError (ev : Nat)
deriving DecidableEq

/-- A JS value a promise can be rejected with: either an `Error`
object carrying a message and an optional `cause`, or a raw host
event object (which has no `message` property). -/
inductive RejectValue where
  | jsError (message : String) (cause : Option Nat)
  | hostEvent (ev : Nat)
deriving DecidableEq

/-- The full `fileToGenerativePart` promise: every `reject(new
Error(msg))` in the source creates an `Error` with no cause, and
`reader.onerror = (error) => reject(error)` rejects with the raw
host event itself. -/
def fileToGenerativePartOutcome : ReadOutcome → Except RejectValue GenerativePart
  | .str s => (fileToGenerativePart s).mapError (fun m => .jsError m none)
  | .nonString => .error (.jsError failedReadMsg none)
  | .readError ev => .error (.hostEvent ev)

/-- Validation message shown when no file or no prompt is present. -/
def validationMsg : String :=
  "Please upload an image and provide a modification prompt."

/-- Generic fallback used when a caught value has no usable message. -/
def unknownErrorMsg : String :=
  "An unknown error occurred while communicating with the AI."

/-- JS `e.message || fallback` in the `catch` block: an `Error`'s
message is used when non-empty; an empty message, or a value with no
`message` property (a raw host event), falls back to the generic
text. -/
def messageOf : RejectValue → String
  | .jsError m _ => if m = "" then unknownErrorMsg else m
  | .hostEvent _ => unknownErrorMsg

/-- A user-selected file, characterised by what `readAsDataURL`
observes of it. -/
structure SourceFile where
  read : ReadOutcome
deriving DecidableEq

/-- The `App` component's state hooks: `originalImageFile`,
`originalImageDataUrl`, `editedImageData`, `prompt`, `isLoading`,
`error`, with their `useState` initial values as defaults. -/
structure SessionState where
  originalImageFile : Option SourceFile := none
  originalImageDataUrl : Option Str := none
  editedImageData : Option Str := none
  prompt : Str := []
  isLoading : Bool := false
  error : Option String := none
deriving DecidableEq

/-- The state of `App` right after mounting. -/
def initialState : SessionState := {}

/-- The batched updates `setIsLoading(true); setError(null);
setEditedImageData(null)` at the start of a generate cycle. -/
def busyState (st : SessionState) : SessionState :=
  { st with isLoading := true, error := none, editedImageData := none }

/-- The displayed data URL rebuilt on success:
``data:${mimeType};base64,${resultBase64}``. -/
def mkDataUrl (mimeType b64 : Str) : Str :=
  String.toList "data:" ++ mimeType ++ String.toList ";base64," ++ b64

/-- Observable outcome of one `handleGenerate` invocation: the
sequence of rendered states (one per batched update), and how many
times `fileToGenerativePart` and `editImageWithGemini` were called. -/
structure GenResult where
  states : List SessionState
  encCalls : Nat
  svcCalls : Nat
deriving DecidableEq

/-- `handleGenerate`: reject with the validation message when
`!originalImageFile || !prompt`; otherwise enter the busy state,
await the encoder, await the service call, and settle.  The remote
service is opaque, so its outcome `svc` is a parameter; the encoder's
outcome is determined by the selected file's read outcome. -/
def handleGenerate (st : SessionState) (svc : Except RejectValue Str) :
    GenResult :=
  match st.originalImageFile with
  | none => ⟨[{ st with error := some validationMsg }], 0, 0⟩
  | some f =>
    if st.prompt = [] then ⟨[{ st with error := some validationMsg }], 0, 0⟩
    else
      match fileToGenerativePartOutcome f.read with
      | .error e =>
        ⟨[busyState st,
          { busyState st with error := some (messageOf e), isLoading := false }],
         1, 0⟩
      | .ok part =>
        match svc with
        | .error e =>
          ⟨[busyState st,
            { busyState st with error := some (messageOf e), isLoading := false }],
           1, 1⟩
        | .ok b64 =>
          ⟨[busyState st,
            { busyState st with
                editedImageData := some (mkDataUrl part.mimeType b64),
                isLoading := false }],
           1, 1⟩

/-- `handleFileSelect`'s synchronous updates: store the file and
clear any previous result and error. -/
def handleFileSelect (st : SessionState) (f : SourceFile) : SessionState :=
  { st with originalImageFile := some f, editedImageData := none, error := none }

/-- The `onloadend` continuation of `handleFileSelect`: store the
preview data URL. -/
def fileReadComplete (st : SessionState) (u : Str) : SessionState :=
  { st with originalImageDataUrl := some u }

/-- The prompt textarea's `onChange` handler. -/
def updatePrompt (st : SessionState) (p : Str) : SessionState :=
  { st with prompt := p }

/-- The anchor element `handleDownload` clicks: its `href` and its
`download` file name. -/
structure DownloadAction where
  href : Str
  filename : Str
deriving DecidableEq

/-- `handleDownload`: return early when `!editedImageData` (absent or
empty string); otherwise click an anchor whose `href` is the stored
data URL, unchanged, and whose name is ``h4x_edit_${Date.now()}.png``. -/
def handleDownload (st : SessionState) (now : Nat) : Option DownloadAction :=
  match st.editedImageData with
  | none => none
  | some d =>
    if d = [] then none
    else some ⟨d, String.toList ("h4x_edit_" ++ Nat.repr now ++ ".png")⟩

/-- States the view can reach: the initial state, followed by any
sequence of file selections (allowed at any time), preview-read
completions, prompt edits, and generate cycles.  A generate cycle can
only start when the Generate button is enabled
(`disabled={isLoading || !originalImageFile || !prompt}`), and makes
every state of its trace observable. -/
inductive Reachable : SessionState → Prop where
  | init : Reachable initialState
  | selectFile (st : SessionState) (f : SourceFile) :
      Reachable st → Reachable (handleFileSelect st f)
  | fileLoaded (st : SessionState) (u : Str) :
      Reachable st → Reachable (fileReadComplete st u)
  | editPrompt (st : SessionState) (p : Str) :
      Reachable st → Reachable (updatePrompt st p)
  | generate (st : SessionState) (svc : Except RejectValue Str)
      (s : SessionState) :
      Reachable st → st.isLoading = false → st.originalImageFile.isSome →
      st.prompt ≠ [] → s ∈ (handleGenerate st svc).states → Reachable s

theorem jsSplit_ne_nil (sep : Char) (s : Str) : jsSplit sep s ≠ [] := by
  cases s with
  | nil => simp [jsSplit]
  | cons c cs => by_cases h : c = sep <;> simp [jsSplit, h]

theorem jsSplit_headD (sep : Char) (s : Str) :
    (jsSplit sep s).headD [] = upToFirstOrAll sep s := by
  induction s with
  | nil => rfl
  | cons c cs ih =>
    by_cases h : c = sep
    · simp [jsSplit, upToFirstOrAll, upToFirst, h]
    · cases hu : upToFirst sep cs with
      | none =>
        simp [upToFirstOrAll, hu] at ih
        simp [jsSplit, upToFirstOrAll, upToFirst, h, hu, ih]
      | some t =>
        simp [upToFirstOrAll, hu] at ih
        simp [jsSplit, upToFirstOrAll, upToFirst, h, hu, ih]

theorem jsSplit_getElem1 (sep : Char) (s : Str) :
    (jsSplit sep s)[1]? = (afterFirst sep s).map (upToFirstOrAll sep) := by
  induction s with
  | nil => rfl
  | cons c cs ih =>
    cases hl : jsSplit sep cs with
    | nil => exact absurd hl (jsSplit_ne_nil sep cs)
    | cons f r =>
      by_cases h : c = sep
      · have hf : f = upToFirstOrAll sep cs := by
          have := jsSplit_headD sep cs
          rw [hl] at this
          simpa using this
        simp [jsSplit, afterFirst, h, hl, hf]
      · rw [hl] at ih
        simp [jsSplit, afterFirst, h, hl]
        simpa using ih

theorem jsSplit_append (sep : Char) (a b : Str) (h : sep ∉ a) :
    jsSplit sep (a ++ sep :: b) = a :: jsSplit sep b := by
  induction a with
  | nil => simp [jsSplit]
  | cons x a' ih =>
    have hx : ¬ x = sep := fun e => h (by simp [e])
    have h' : sep ∉ a' := fun m => h (by simp [m])
    simp [jsSplit, hx, ih h']

theorem jsSplit_of_not_mem (sep : Char) (s : Str) (h : sep ∉ s) :
    jsSplit sep s = [s] := by
  induction s with
  | nil => rfl
  | cons x s' ih =>
    have hx : ¬ x = sep := fun e => h (by simp [e])
    have h' : sep ∉ s' := fun m => h (by simp [m])
    simp [jsSplit, hx, ih h']

theorem afterFirst_append (sep : Char) (a b : Str) (h : sep ∉ a) :
    afterFirst sep (a ++ sep :: b) = some b := by
  induction a with
  | nil => simp [afterFirst]
  | cons x a' ih =>
    have hx : ¬ x = sep := fun e => h (by simp [e])
    have h' : sep ∉ a' := fun m => h (by simp [m])
    simp [afterFirst, hx, ih h']

theorem upToFirst_append (sep : Char) (a b : Str) (h : sep ∉ a) :
    upToFirst sep (a ++ sep :: b) = some a := by
  induction a with
  | nil => simp [upToFirst]
  | cons x a' ih =>
    have hx : ¬ x = sep := fun e => h (by simp [e])
    have h' : sep ∉ a' := fun m => h (by simp [m])
    simp [upToFirst, hx, ih h']

theorem afterFirst_eq_none (sep : Char) (s : Str) (h : sep ∉ s) :
    afterFirst sep s = none := by
  induction s with
  | nil => rfl
  | cons x s' ih =>
    have hx : ¬ x = sep := fun e => h (by simp [e])
    have h' : sep ∉ s' := fun m => h (by simp [m])
    simp [afterFirst, hx, ih h']

theorem mem_of_afterFirst (sep : Char) (s t : Str)
    (h : afterFirst sep s = some t) : sep ∈ s := by
  induction s with
  | nil => simp [afterFirst] at h
  | cons x s' ih =>
    by_cases hx : x = sep
    · simp [hx]
    · rw [afterFirst, if_neg hx] at h
      exact List.mem_cons_of_mem x (ih h)

theorem upToFirst_eq_none_iff (sep : Char) (s : Str) :
    upToFirst sep s = none ↔ sep ∉ s := by
  induction s with
  | nil => simp [upToFirst]
  | cons x s' ih =>
    by_cases hx : x = sep
    · simp [upToFirst, hx]
    · simp [upToFirst, hx, ih]
      exact fun _ e => hx e.symm

theorem scanCapture_append (a b : Str)
    (h : ∀ c ∈ a, c ≠ ';' ∧ isLineTerminator c = false) :
    scanCapture (a ++ ';' :: b) = some a := by
  induction a with
  | nil => simp [scanCapture]
  | cons x a' ih =>
    obtain ⟨hx1, hx2⟩ := h x (List.mem_cons_self x a')
    simp [scanCapture, hx1, hx2, ih (fun c m => h c (List.mem_cons_of_mem x m))]

theorem scanCapture_eq_some (s cap : Str) (h : scanCapture s = some cap) :
    ∃ post, s = cap ++ ';' :: post ∧
      ∀ c ∈ cap, c ≠ ';' ∧ isLineTerminator c = false := by
  induction s generalizing cap with
  | nil => simp [scanCapture] at h
  | cons x s' ih =>
    by_cases hx : x = ';'
    · rw [scanCapture, if_pos hx] at h
      obtain rfl : cap = [] := by simpa using h.symm
      exact ⟨s', by simp [hx], by simp⟩
    · by_cases ht : isLineTerminator x
      · rw [scanCapture, if_neg hx, if_pos ht] at h
        simp at h
      · rw [scanCapture, if_neg hx, if_neg ht] at h
        obtain ⟨cap', hc', rfl⟩ := Option.map_eq_some'.1 h
        obtain ⟨post, rfl, hclean⟩ := ih cap' hc'
        refine ⟨post, by simp, ?_⟩
        intro c hc
        rcases List.mem_cons.1 hc with rfl | hc
        · exact ⟨hx, by simpa using ht⟩
        · exact hclean c hc

theorem extractMime_eq_some (s m : Str) (h : extractMime s = some m) :
    ∃ pre post, s = pre ++ ':' :: m ++ ';' :: post ∧
      ∀ c ∈ m, c ≠ ';' ∧ isLineTerminator c = false := by
  induction s with
  | nil => simp [extractMime] at h
  | cons x s' ih =>
    by_cases hx : x = ':'
    · rw [extractMime, if_pos hx] at h
      cases hs : scanCapture s' with
      | some cap =>
        rw [hs] at h
        have hcm : cap = m := by simpa using h
        subst hcm
        obtain ⟨post, hp, hclean⟩ := scanCapture_eq_some s' cap hs
        exact ⟨[], post, by simp [hx, hp], hclean⟩
      | none =>
        rw [hs] at h
        obtain ⟨pre, post, hp, hc⟩ := ih h
        exact ⟨x :: pre, post, by simp [hp], hc⟩
    · rw [extractMime, if_neg hx] at h
      obtain ⟨pre, post, hp, hc⟩ := ih h
      exact ⟨x :: pre, post, by simp [hp], hc⟩

theorem scanCapture_eq_upToFirst (s : Str)
    (h : ∀ c ∈ s, isLineTerminator c = false) :
    scanCapture s = upToFirst ';' s := by
  induction s with
  | nil => rfl
  | cons x s' ih =>
    by_cases hx : x = ';'
    · simp [scanCapture, upToFirst, hx]
    · have ht := h x (List.mem_cons_self x s')
      simp [scanCapture, upToFirst, hx, ht,
        ih (fun c m => h c (List.mem_cons_of_mem x m))]

theorem scanCapture_eq_none (s : Str) (h : ';' ∉ s) :
    scanCapture s = none := by
  induction s with
  | nil => rfl
  | cons x s' ih =>
    have hx : ¬ x = ';' := fun e => h (by simp [e])
    have h' : ';' ∉ s' := fun m => h (by simp [m])
    by_cases ht : isLineTerminator x <;> simp [scanCapture, hx, ht, ih h']

theorem extractMime_eq_none (s : Str) (h : ';' ∉ s) :
    extractMime s = none := by
  induction s with
  | nil => rfl
  | cons x s' ih =>
    have h' : ';' ∉ s' := fun m => h (by simp [m])
    by_cases hx : x = ':'
    · rw [extractMime, if_pos hx, scanCapture_eq_none s' h', ih h']
    · rw [extractMime, if_neg hx]
      exact ih h'

theorem extractMime_of_clean (s : Str)
    (h : ∀ c ∈ s, isLineTerminator c = false) :
    extractMime s = (afterFirst ':' s).bind (upToFirst ';') := by
  induction s with
  | nil => rfl
  | cons x s' ih =>
    have h' : ∀ c ∈ s', isLineTerminator c = false :=
      fun c m => h c (List.mem_cons_of_mem x m)
    by_cases hx : x = ':'
    · cases hu : upToFirst ';' s' with
      | some t =>
        rw [extractMime, if_pos hx, scanCapture_eq_upToFirst s' h', hu]
        simp [afterFirst, hx, hu]
      | none =>
        have hns : ';' ∉ s' := (upToFirst_eq_none_iff ';' s').1 hu
        rw [extractMime, if_pos hx, scanCapture_eq_upToFirst s' h', hu,
          extractMime_eq_none s' hns]
        simp [afterFirst, hx, hu]
    · rw [extractMime, if_neg hx, ih h']
      simp [afterFirst, hx]

theorem fileToGenerativePart_cases (s : Str) :
    (∃ p, fileToGenerativePart s = .ok p) ∨
    fileToGenerativePart s = .error invalidDataUrlMsg ∨
    fileToGenerativePart s = .error noMimeTypeMsg := by
  unfold fileToGenerativePart
  split
  · simp
  · split
    · simp
    · split
      · simp
      · split
        · simp
        · exact Or.inl ⟨_, rfl⟩

theorem fileToGenerativePart_ok (s : Str) (p : GenerativePart)
    (h : fileToGenerativePart s = .ok p) :
    (jsSplit ',' s)[1]? = some p.data ∧ p.data ≠ [] ∧
    (jsSplit ',' s).headD [] ≠ [] ∧
    extractMime ((jsSplit ',' s).headD []) = some p.mimeType ∧
    p.mimeType ≠ [] := by
  unfold fileToGenerativePart at h
  split at h
  · simp at h
  next d h1 =>
    split at h
    · simp at h
    next h2 =>
      split at h
      · simp at h
      next m h3 =>
        split at h
        · simp at h
        next h4 =>
          injection h with h5
          subst h5
          push_neg at h2
          exact ⟨h1, h2.2, h2.1, h3, h4⟩

theorem afterFirst_eq_none_iff (sep : Char) (s : Str) :
    afterFirst sep s = none ↔ sep ∉ s := by
  induction s with
  | nil => simp [afterFirst]
  | cons x s' ih =>
    by_cases hx : x = sep
    · simp [afterFirst, hx]
    · simp [afterFirst, hx, ih]
      exact fun _ e => hx e.symm

theorem fileToGenerativePart_no_second (s : Str)
    (h : (jsSplit ',' s)[1]? = none) :
    fileToGenerativePart s = .error invalidDataUrlMsg := by
  unfold fileToGenerativePart
  split
  · rfl
  next d h1 =>
    rw [h] at h1
    simp at h1

theorem fileToGenerativePart_empty_data (s : Str)
    (h : (jsSplit ',' s)[1]? = some []) :
    fileToGenerativePart s = .error invalidDataUrlMsg := by
  unfold fileToGenerativePart
  split
  · rfl
  next d h1 =>
    rw [h] at h1
    have hd : d = [] := by simpa using h1.symm
    rw [if_pos (Or.inr hd)]

theorem fileToGenerativePart_none_mime (s d : Str)
    (h1 : (jsSplit ',' s)[1]? = some d) (h2 : d ≠ [])
    (h3 : (jsSplit ',' s).headD [] ≠ [])
    (h4 : extractMime ((jsSplit ',' s).headD []) = none) :
    fileToGenerativePart s = .error noMimeTypeMsg := by
  unfold fileToGenerativePart
  split
  next h5 =>
    rw [h1] at h5
    simp at h5
  next d' h5 =>
    rw [h1] at h5
    have hd : d = d' := by simpa using h5
    subst hd
    rw [if_neg (by push_neg; exact ⟨h3, h2⟩), h4]

theorem fileToGenerativePart_empty_mime (s d : Str)
    (h1 : (jsSplit ',' s)[1]? = some d) (h2 : d ≠ [])
    (h3 : (jsSplit ',' s).headD [] ≠ [])
    (h4 : extractMime ((jsSplit ',' s).headD []) = some []) :
    fileToGenerativePart s = .error noMimeTypeMsg := by
  unfold fileToGenerativePart
  split
  next h5 =>
    rw [h1] at h5
    simp at h5
  next d' h5 =>
    rw [h1] at h5
    have hd : d = d' := by simpa using h5
    subst hd
    rw [if_neg (by push_neg; exact ⟨h3, h2⟩), h4]
    simp

/-- C1: for every well-formed data URL `"data:<mime>;base64,<payload>"`
(a non-empty MIME type free of commas, semicolons and line terminators,
and a non-empty payload free of commas), `fileToGenerativePart`
succeeds and returns exactly the MIME type and the payload with the
header stripped. -/
theorem encoder_wellformed_roundtrip (mime payload : Str)
    (hm0 : mime ≠ []) (hm1 : ',' ∉ mime) (hm2 : ';' ∉ mime)
    (hm3 : ∀ c ∈ mime, isLineTerminator c = false)
    (hp0 : payload ≠ []) (hp1 : ',' ∉ payload) :
    fileToGenerativePart
        (String.toList "data:" ++ mime ++ String.toList ";base64," ++ payload) =
      .ok ⟨mime, payload⟩ := by
  have h64 : String.toList ";base64," = String.toList ";base64" ++ [','] := by
    decide
  have key : String.toList "data:" ++ mime ++ String.toList ";base64," ++ payload
      = (String.toList "data:" ++ mime ++ String.toList ";base64") ++
          ',' :: payload := by
    rw [h64]
    simp [List.append_assoc]
  have hA : (',' : Char) ∉
      String.toList "data:" ++ mime ++ String.toList ";base64" := by
    intro hmem
    simp only [List.mem_append] at hmem
    rcases hmem with (h | h) | h
    · exact absurd h (by decide)
    · exact hm1 h
    · exact absurd h (by decide)
  have hsplit : jsSplit ','
      (String.toList "data:" ++ mime ++ String.toList ";base64," ++ payload)
      = [String.toList "data:" ++ mime ++ String.toList ";base64", payload] := by
    rw [key, jsSplit_append ',' _ payload hA, jsSplit_of_not_mem ',' payload hp1]
  have hscan : scanCapture (mime ++ ';' :: ['b', 'a', 's', 'e', '6', '4']) =
      some mime :=
    scanCapture_append mime ['b', 'a', 's', 'e', '6', '4']
      (fun c hc => ⟨fun e => hm2 (e ▸ hc), hm3 c hc⟩)
  have hmime : extractMime
      ('d' :: 'a' :: 't' :: 'a' :: ':' ::
        (mime ++ ';' :: ['b', 'a', 's', 'e', '6', '4'])) = some mime := by
    rw [extractMime, if_neg (by decide), extractMime, if_neg (by decide),
      extractMime, if_neg (by decide), extractMime, if_neg (by decide),
      extractMime, if_pos rfl, hscan]
  unfold fileToGenerativePart
  rw [hsplit]
  simp [hmime, hp0, hm0]

/-- Witness for C1 at the MIME type `image/png` and payload `AAAA`. -/
theorem encoder_wellformed_roundtrip_witness :
    fileToGenerativePart
        (String.toList "data:" ++ String.toList "image/png" ++
          String.toList ";base64," ++ String.toList "AAAA") =
      .ok ⟨String.toList "image/png", String.toList "AAAA"⟩ :=
  encoder_wellformed_roundtrip (String.toList "image/png") (String.toList "AAAA")
    (by decide) (by decide) (by decide) (by decide) (by decide) (by decide)

/-- C2 counterexample: on `"data:a;base64,x,y"` the encoder succeeds
with `data = "x"`, but the entire substring after the first comma is
`"x,y"`: `split(',')` truncates the payload at the second comma. -/
theorem encoder_split_fields_counterexample :
    fileToGenerativePart (String.toList "data:a;base64,x,y") =
      .ok ⟨String.toList "a", String.toList "x"⟩ ∧
    afterFirst ',' (String.toList "data:a;base64,x,y") =
      some (String.toList "x,y") ∧
    String.toList "x" ≠ String.toList "x,y" := by
  refine ⟨by decide, by decide, by decide⟩

/-- C2 (amended): on success, `data` is the substring after the first
comma truncated at the next comma (the field between the first two
commas), and `mimeType` is a substring of the header enclosed between
a `:` and the next `;` and free of `;` and line terminators — equal
to the substring between the first `:` and the first following `;`
whenever the header contains no line terminator. -/
theorem encoder_split_fields (s : Str) (p : GenerativePart)
    (h : fileToGenerativePart s = .ok p) :
    (∃ rest, afterFirst ',' s = some rest ∧
      p.data = upToFirstOrAll ',' rest) ∧
    (∃ pre post, upToFirstOrAll ',' s = pre ++ ':' :: p.mimeType ++ ';' :: post ∧
      ∀ c ∈ p.mimeType, c ≠ ';' ∧ isLineTerminator c = false) ∧
    ((∀ c ∈ upToFirstOrAll ',' s, isLineTerminator c = false) →
      (afterFirst ':' (upToFirstOrAll ',' s)).bind (upToFirst ';') =
        some p.mimeType) := by
  obtain ⟨h1, _, _, h4, _⟩ := fileToGenerativePart_ok s p h
  rw [jsSplit_getElem1] at h1
  rw [jsSplit_headD] at h4
  refine ⟨?_, ?_, ?_⟩
  · obtain ⟨rest, hr, hval⟩ := Option.map_eq_some'.1 h1
    exact ⟨rest, hr, hval.symm⟩
  · obtain ⟨pre, post, hp, hc⟩ := extractMime_eq_some _ _ h4
    exact ⟨pre, post, hp, hc⟩
  · intro hclean
    rw [← extractMime_of_clean _ hclean]
    exact h4

/-- Witness for the amended C2 at `"data:a;base64,x,y"`. -/
theorem encoder_split_fields_witness :
    (∃ rest, afterFirst ',' (String.toList "data:a;base64,x,y") = some rest ∧
      String.toList "x" = upToFirstOrAll ',' rest) ∧
    (∃ pre post, upToFirstOrAll ',' (String.toList "data:a;base64,x,y") =
        pre ++ ':' :: String.toList "a" ++ ';' :: post ∧
      ∀ c ∈ String.toList "a", c ≠ ';' ∧ isLineTerminator c = false) ∧
    ((∀ c ∈ upToFirstOrAll ',' (String.toList "data:a;base64,x,y"),
        isLineTerminator c = false) →
      (afterFirst ':' (upToFirstOrAll ','
          (String.toList "data:a;base64,x,y"))).bind (upToFirst ';') =
        some (String.toList "a")) :=
  encoder_split_fields (String.toList "data:a;base64,x,y")
    ⟨String.toList "a", String.toList "x"⟩ (by decide)

/-- C3: on a string lacking a comma, or whose header (the part before
the first comma) has no `:...;` match or an empty one, the encoder
rejects with one of its two stage messages, never with a partial
result; a missing comma yields the comma-split message, and a failed
MIME match past a successful comma split yields the MIME message. -/
theorem encoder_malformed_rejects (s : Str)
    (h : (',' ∉ s) ∨ extractMime (upToFirstOrAll ',' s) = none ∨
      extractMime (upToFirstOrAll ',' s) = some []) :
    (fileToGenerativePart s = .error invalidDataUrlMsg ∨
      fileToGenerativePart s = .error noMimeTypeMsg) ∧
    (∀ p, fileToGenerativePart s ≠ .ok p) ∧
    (',' ∉ s → fileToGenerativePart s = .error invalidDataUrlMsg) ∧
    (',' ∈ s → upToFirstOrAll ',' s ≠ [] →
      (∀ d, (afterFirst ',' s).map (upToFirstOrAll ',') = some d → d ≠ []) →
      fileToGenerativePart s = .error noMimeTypeMsg) := by
  have hok : ∀ p, fileToGenerativePart s ≠ .ok p := by
    intro p hp
    obtain ⟨h1, _, _, h4, h5⟩ := fileToGenerativePart_ok s p hp
    rw [jsSplit_getElem1] at h1
    rw [jsSplit_headD] at h4
    obtain ⟨rest, hr, _⟩ := Option.map_eq_some'.1 h1
    rcases h with h | h | h
    · exact h (mem_of_afterFirst ',' s rest hr)
    · rw [h4] at h; simp at h
    · rw [h4] at h
      exact h5 (by simpa using h)
  refine ⟨?_, hok, ?_, ?_⟩
  · rcases fileToGenerativePart_cases s with ⟨p, hp⟩ | h' | h'
    · exact absurd hp (hok p)
    · exact Or.inl h'
    · exact Or.inr h'
  · intro hnc
    refine fileToGenerativePart_no_second s ?_
    rw [jsSplit_getElem1, afterFirst_eq_none (',') s hnc]
    rfl
  · intro hmem hhd hdat
    cases haf : afterFirst ',' s with
    | none => exact absurd hmem ((afterFirst_eq_none_iff ',' s).1 haf)
    | some rest =>
      have h1 : (jsSplit ',' s)[1]? = some (upToFirstOrAll ',' rest) := by
        rw [jsSplit_getElem1, haf]
        rfl
      have h2 : upToFirstOrAll ',' rest ≠ [] :=
        hdat (upToFirstOrAll ',' rest) (by rw [haf]; rfl)
      have h3 : (jsSplit ',' s).headD [] ≠ [] := by
        rw [jsSplit_headD]; exact hhd
      rcases h with h | h | h
      · exact absurd hmem h
      · exact fileToGenerativePart_none_mime s _ h1 h2 h3
          (by rw [jsSplit_headD]; exact h)
      · exact fileToGenerativePart_empty_mime s _ h1 h2 h3
          (by rw [jsSplit_headD]; exact h)

/-- Witness for C3 at the comma-free string `"nocomma"`. -/
theorem encoder_malformed_rejects_witness :
    (fileToGenerativePart (String.toList "nocomma") =
        .error invalidDataUrlMsg ∨
      fileToGenerativePart (String.toList "nocomma") =
        .error noMimeTypeMsg) ∧
    (∀ p, fileToGenerativePart (String.toList "nocomma") ≠ .ok p) ∧
    ((',' ∉ String.toList "nocomma") →
      fileToGenerativePart (String.toList "nocomma") =
        .error invalidDataUrlMsg) ∧
    (',' ∈ String.toList "nocomma" →
      upToFirstOrAll ',' (String.toList "nocomma") ≠ [] →
      (∀ d, (afterFirst ',' (String.toList "nocomma")).map
          (upToFirstOrAll ',') = some d → d ≠ []) →
      fileToGenerativePart (String.toList "nocomma") =
        .error noMimeTypeMsg) :=
  encoder_malformed_rejects (String.toList "nocomma") (Or.inl (by decide))

/-- C10: an empty field after the first comma is rejected with the
comma-split message, an empty `:...;` capture (past a successful
comma split) is rejected with the MIME message, the encoder never
returns an empty `data` or `mimeType` field, and the two cited
example inputs reject with the respective messages. -/
theorem encoder_rejects_empty_fields :
    (∀ s, afterFirst ',' s = some [] →
      fileToGenerativePart s = .error invalidDataUrlMsg) ∧
    (∀ s rest, afterFirst ',' s = some rest → upToFirstOrAll ',' rest ≠ [] →
      upToFirstOrAll ',' s ≠ [] →
      extractMime (upToFirstOrAll ',' s) = some [] →
      fileToGenerativePart s = .error noMimeTypeMsg) ∧
    (∀ s p, fileToGenerativePart s = .ok p → p.mimeType ≠ [] ∧ p.data ≠ []) ∧
    fileToGenerativePart (String.toList "data:image/png;base64,") =
      .error invalidDataUrlMsg ∧
    fileToGenerativePart (String.toList "data:;base64,AAAA") =
      .error noMimeTypeMsg := by
  refine ⟨?_, ?_, ?_, by decide, by decide⟩
  · intro s haf
    refine fileToGenerativePart_empty_data s ?_
    rw [jsSplit_getElem1, haf]
    rfl
  · intro s rest haf hrest hhd hmime
    have h1 : (jsSplit ',' s)[1]? = some (upToFirstOrAll ',' rest) := by
      rw [jsSplit_getElem1, haf]
      rfl
    exact fileToGenerativePart_empty_mime s _ h1 hrest
      (by rw [jsSplit_headD]; exact hhd)
      (by rw [jsSplit_headD]; exact hmime)
  · intro s p hp
    obtain ⟨_, h2, _, _, h5⟩ := fileToGenerativePart_ok s p hp
    exact ⟨h5, h2⟩

/-- Witness for C10 at `"a,"` (empty payload) and
`"data:;base64,AAAA"` (empty MIME capture). -/
theorem encoder_rejects_empty_fields_witness :
    fileToGenerativePart (String.toList "a,") = .error invalidDataUrlMsg ∧
    fileToGenerativePart (String.toList "data:;base64,AAAA") =
      .error noMimeTypeMsg :=
  ⟨encoder_rejects_empty_fields.1 (String.toList "a,") (by decide),
   encoder_rejects_empty_fields.2.1 (String.toList "data:;base64,AAAA")
     (String.toList "AAAA") (by decide) (by decide) (by decide) (by decide)⟩

theorem messageOf_jsError (m : String) (c : Option Nat) (hm : m ≠ "") :
    messageOf (.jsError m c) = m := by
  simp [messageOf, hm]

theorem messageOf_jsError_empty (c : Option Nat) :
    messageOf (.jsError "" c) = unknownErrorMsg := by
  simp [messageOf]

theorem messageOf_hostEvent (ev : Nat) :
    messageOf (.hostEvent ev) = unknownErrorMsg := rfl

/-- C4: a generate action with no selected file or an empty prompt
surfaces the validation message only, leaves `isLoading` untouched
(so it stays false), and calls neither the encoder nor the
image-editing service. -/
theorem generate_validation_rejects (st : SessionState)
    (svc : Except RejectValue Str)
    (h : st.originalImageFile = none ∨ st.prompt = []) :
    (handleGenerate st svc).states =
      [{ st with error := some validationMsg }] ∧
    (handleGenerate st svc).encCalls = 0 ∧
    (handleGenerate st svc).svcCalls = 0 ∧
    ∀ s ∈ (handleGenerate st svc).states, s.isLoading = st.isLoading := by
  have hres : handleGenerate st svc =
      ⟨[{ st with error := some validationMsg }], 0, 0⟩ := by
    rcases h with h | h
    · unfold handleGenerate
      simp only [h]
    · unfold handleGenerate
      cases hf : st.originalImageFile with
      | none => rfl
      | some f => simp [h]
  rw [hres]
  refine ⟨rfl, rfl, rfl, ?_⟩
  intro s hs
  have : s = { st with error := some validationMsg } := by simpa using hs
  rw [this]

/-- Witness for C4: the initial state has no file selected. -/
theorem generate_validation_rejects_witness :
    (handleGenerate initialState (.ok [])).states =
      [{ initialState with error := some validationMsg }] ∧
    (handleGenerate initialState (.ok [])).encCalls = 0 ∧
    (handleGenerate initialState (.ok [])).svcCalls = 0 ∧
    ∀ s ∈ (handleGenerate initialState (.ok [])).states,
      s.isLoading = initialState.isLoading :=
  generate_validation_rejects initialState (.ok []) (Or.inl rfl)

/-- C5: when the encoder yields MIME type `M` and the service call
resolves with payload `P`, the cycle settles in a success state whose
displayed string is exactly `"data:" ++ M ++ ";base64," ++ P` (the
original MIME type), with `isLoading` cleared and no error. -/
theorem generate_success_state (st : SessionState) (f : SourceFile)
    (M D P : Str)
    (h1 : st.originalImageFile = some f) (h2 : st.prompt ≠ [])
    (h3 : fileToGenerativePartOutcome f.read = .ok ⟨M, D⟩) :
    ∃ fin, (handleGenerate st (.ok P)).states.getLast? = some fin ∧
      fin.editedImageData =
        some (String.toList "data:" ++ M ++ String.toList ";base64," ++ P) ∧
      fin.isLoading = false ∧ fin.error = none := by
  have hres : handleGenerate st (.ok P) =
      ⟨[busyState st,
        { busyState st with
            editedImageData := some (mkDataUrl M P), isLoading := false }],
       1, 1⟩ := by
    unfold handleGenerate
    simp only [h1]
    rw [if_neg h2]
    simp only [h3]
  rw [hres]
  exact ⟨_, rfl, rfl, rfl, rfl⟩

/-- Witness for C5 at a PNG source file and service payload `BBBB`. -/
theorem generate_success_state_witness :
    ∃ fin,
      (handleGenerate
          { originalImageFile :=
              some ⟨.str (String.toList "data:image/png;base64,AAAA")⟩,
            prompt := String.toList "make it neon" }
          (.ok (String.toList "BBBB"))).states.getLast? = some fin ∧
      fin.editedImageData =
        some (String.toList "data:" ++ String.toList "image/png" ++
          String.toList ";base64," ++ String.toList "BBBB") ∧
      fin.isLoading = false ∧ fin.error = none :=
  generate_success_state _ _ (String.toList "image/png")
    (String.toList "AAAA") (String.toList "BBBB") rfl (by decide) (by decide)

/-- C6: when the encoder or the service rejects with `e`, the cycle
settles in a failed state storing `e`'s message (the generic fallback
when the message is empty or absent), with `isLoading` cleared and no
result stored; and under valid-submission preconditions the cycle
first re-enters the busy state with any previous error and result
cleared. -/
theorem generate_failure_state (st : SessionState) (f : SourceFile)
    (svc : Except RejectValue Str) (e : RejectValue)
    (h1 : st.originalImageFile = some f) (h2 : st.prompt ≠ []) :
    ((fileToGenerativePartOutcome f.read = .error e ∨
      ((∃ p, fileToGenerativePartOutcome f.read = .ok p) ∧
        svc = .error e)) →
      ∃ fin, (handleGenerate st svc).states.getLast? = some fin ∧
        fin.error = some (messageOf e) ∧
        (∀ m c, e = .jsError m c → m ≠ "" → fin.error = some m) ∧
        (∀ c, e = .jsError "" c → fin.error = some unknownErrorMsg) ∧
        (∀ ev, e = .hostEvent ev → fin.error = some unknownErrorMsg) ∧
        fin.isLoading = false ∧ fin.editedImageData = none) ∧
    ((handleGenerate st svc).states.head? = some (busyState st) ∧
      (busyState st).isLoading = true ∧ (busyState st).error = none ∧
      (busyState st).editedImageData = none) := by
  constructor
  · intro h
    have hres : handleGenerate st svc =
        ⟨[busyState st,
          { busyState st with
              error := some (messageOf e), isLoading := false }],
         1, if (fileToGenerativePartOutcome f.read).isOk then 1 else 0⟩ := by
      rcases h with he | ⟨⟨p, hp⟩, hsvc⟩
      · unfold handleGenerate
        simp only [h1]
        rw [if_neg h2]
        simp only [he]
        rfl
      · unfold handleGenerate
        simp only [h1]
        rw [if_neg h2]
        simp only [hp, hsvc]
        rfl
    rw [hres]
    refine ⟨_, rfl, rfl, ?_, ?_, ?_, rfl, rfl⟩
    · rintro m c rfl hm
      show some (messageOf (.jsError m c)) = some m
      rw [messageOf_jsError m c hm]
    · rintro c rfl
      show some (messageOf (.jsError "" c)) = some unknownErrorMsg
      rw [messageOf_jsError_empty c]
    · rintro ev rfl
      rfl
  · refine ⟨?_, rfl, rfl, rfl⟩
    unfold handleGenerate
    simp only [h1]
    rw [if_neg h2]
    cases ho : fileToGenerativePartOutcome f.read with
    | error e' => rfl
    | ok p =>
      cases svc with
      | error e' => rfl
      | ok b => rfl

/-- Witness for C6: a file whose read errors with host event 3; the
failed state stores the generic fallback message. -/
theorem generate_failure_state_witness :
    ((fileToGenerativePartOutcome (SourceFile.mk (.readError 3)).read =
        .error (.hostEvent 3) ∨
      ((∃ p, fileToGenerativePartOutcome (SourceFile.mk (.readError 3)).read =
          .ok p) ∧ (.ok [] : Except RejectValue Str) = .error (.hostEvent 3))) →
      ∃ fin,
        (handleGenerate
          { originalImageFile := some ⟨.readError 3⟩,
            prompt := String.toList "x" } (.ok [])).states.getLast? =
            some fin ∧
        fin.error = some (messageOf (.hostEvent 3)) ∧
        (∀ m c, RejectValue.hostEvent 3 = .jsError m c → m ≠ "" →
          fin.error = some m) ∧
        (∀ c, RejectValue.hostEvent 3 = .jsError "" c →
          fin.error = some unknownErrorMsg) ∧
        (∀ ev, RejectValue.hostEvent 3 = .hostEvent ev →
          fin.error = some unknownErrorMsg) ∧
        fin.isLoading = false ∧ fin.editedImageData = none) ∧
    ((handleGenerate
        { originalImageFile := some ⟨.readError 3⟩,
          prompt := String.toList "x" } (.ok [])).states.head? =
        some (busyState
          { originalImageFile := some ⟨.readError 3⟩,
            prompt := String.toList "x" }) ∧
      (busyState
        { originalImageFile := some ⟨.readError 3⟩,
          prompt := String.toList "x" }).isLoading = true ∧
      (busyState
        { originalImageFile := some ⟨.readError 3⟩,
          prompt := String.toList "x" }).error = none ∧
      (busyState
        { originalImageFile := some ⟨.readError 3⟩,
          prompt := String.toList "x" }).editedImageData = none) :=
  generate_failure_state
    { originalImageFile := some ⟨.readError 3⟩, prompt := String.toList "x" }
    ⟨.readError 3⟩ (.ok []) (.hostEvent 3) rfl (by decide)

/-- The safety property maintained by every event handler: no result
and no error are visible while busy, a result and an error are never
both present, and a stored result is never the empty string. -/
def goodState (st : SessionState) : Prop :=
  (st.isLoading = true → st.editedImageData = none ∧ st.error = none) ∧
  ¬(st.editedImageData.isSome ∧ st.error.isSome) ∧
  (∀ d, st.editedImageData = some d → d ≠ [])

theorem reachable_good (st : SessionState) (h : Reachable st) :
    goodState st := by
  induction h with
  | init => simp [goodState, initialState]
  | selectFile st f hr ih => simp [goodState, handleFileSelect]
  | fileLoaded st u hr ih =>
    obtain ⟨ih1, ih2, ih3⟩ := ih
    exact ⟨ih1, ih2, ih3⟩
  | editPrompt st p hr ih =>
    obtain ⟨ih1, ih2, ih3⟩ := ih
    exact ⟨ih1, ih2, ih3⟩
  | generate st svc s hr hbusy hfile hprompt hmem ih =>
    obtain ⟨f, hf⟩ := Option.isSome_iff_exists.1 hfile
    unfold handleGenerate at hmem
    simp only [hf] at hmem
    rw [if_neg hprompt] at hmem
    cases ho : fileToGenerativePartOutcome f.read with
    | error e =>
      rw [ho] at hmem
      simp only [List.mem_cons, List.mem_singleton, List.not_mem_nil,
        or_false] at hmem
      rcases hmem with rfl | rfl
      · simp [goodState, busyState]
      · simp [goodState, busyState]
    | ok part =>
      rw [ho] at hmem
      cases svc with
      | error e =>
        simp only [List.mem_cons, List.mem_singleton, List.not_mem_nil,
          or_false] at hmem
        rcases hmem with rfl | rfl
        · simp [goodState, busyState]
        · simp [goodState, busyState]
      | ok b64 =>
        simp only [List.mem_cons, List.mem_singleton, List.not_mem_nil,
          or_false] at hmem
        rcases hmem with rfl | rfl
        · simp [goodState, busyState]
        · refine ⟨by simp, by simp [busyState], ?_⟩
          intro d hd
          have : d = mkDataUrl part.mimeType b64 := by
            have h0 : mkDataUrl part.mimeType b64 = d := by simpa using hd
            exact h0.symm
          rw [this]
          simp [mkDataUrl]

/-- C7: in every reachable session state, a result or an error is
never visible during the busy window, and once settled a result and
an error are never both present. -/
theorem session_state_invariant (st : SessionState) (h : Reachable st) :
    (st.isLoading = true → st.editedImageData = none ∧ st.error = none) ∧
    (st.isLoading = false → ¬(st.editedImageData.isSome ∧ st.error.isSome)) :=
  ⟨(reachable_good st h).1, fun _ => (reachable_good st h).2.1⟩

/-- Witness for C7 at the initial state. -/
theorem session_state_invariant_witness :
    (initialState.isLoading = true →
      initialState.editedImageData = none ∧ initialState.error = none) ∧
    (initialState.isLoading = false →
      ¬(initialState.editedImageData.isSome ∧ initialState.error.isSome)) :=
  session_state_invariant initialState Reachable.init

/-- C9: `handleDownload` does nothing without a stored result; in any
reachable state holding a result it downloads exactly the stored data
URL, unchanged, under the name `h4x_edit_<millis>.png`, whatever the
result's actual encoding. -/
theorem download_materializes_result (st : SessionState) (now : Nat)
    (h : Reachable st) :
    (st.editedImageData = none → handleDownload st now = none) ∧
    (∀ d, st.editedImageData = some d →
      handleDownload st now =
        some ⟨d, String.toList ("h4x_edit_" ++ Nat.repr now ++ ".png")⟩) := by
  constructor
  · intro h0
    simp [handleDownload, h0]
  · intro d hd
    have hne : d ≠ [] := (reachable_good st h).2.2 d hd
    simp [handleDownload, hd, hne]

/-- A sample source file whose read yields a well-formed PNG data
URL. -/
def sampleGoodFile : SourceFile :=
  ⟨.str (String.toList "data:image/png;base64,AAAA")⟩

/-- The session state after selecting `sampleGoodFile`, typing `"x"`,
and completing a generate cycle whose service call returned
`"BBBB"`. -/
def sampleSuccessState : SessionState :=
  { originalImageFile := some sampleGoodFile,
    editedImageData :=
      some (mkDataUrl (String.toList "image/png") (String.toList "BBBB")),
    prompt := String.toList "x",
    isLoading := false, error := none }

theorem sampleSuccessState_reachable : Reachable sampleSuccessState := by
  refine Reachable.generate
    (updatePrompt (handleFileSelect initialState sampleGoodFile)
      (String.toList "x"))
    (.ok (String.toList "BBBB")) sampleSuccessState
    (Reachable.editPrompt _ _
      (Reachable.selectFile _ _ Reachable.init))
    rfl rfl (by decide) (by decide)

/-- Witness for C9 at a reachable success state and time 123. -/
theorem download_materializes_result_witness :
    handleDownload sampleSuccessState 123 =
      some ⟨mkDataUrl (String.toList "image/png") (String.toList "BBBB"),
        String.toList "h4x_edit_123.png"⟩ := by
  have h := (download_materializes_result sampleSuccessState 123
    sampleSuccessState_reachable).2
    (mkDataUrl (String.toList "image/png") (String.toList "BBBB")) rfl
  simpa using h

/-- The rejection C8 describes, following the spec's words: the same
error kind as the encoder's other failures (an `Error` object) with
the host-reported error object attached as its `cause`. -/
def specWrappedRejection (ev : Nat) (v : RejectValue) : Prop :=
  ∃ m, v = .jsError m (some ev)

/-- C8 counterexample: when the underlying read errors, the code
rejects with the raw host event object itself
(`reader.onerror = (error) => reject(error)`), which is not an
`Error` carrying the event as `cause`. -/
theorem read_error_counterexample :
    fileToGenerativePartOutcome (.readError 7) = .error (.hostEvent 7) ∧
    ¬ specWrappedRejection 7 (.hostEvent 7) := by
  refine ⟨rfl, ?_⟩
  rintro ⟨m, hm⟩
  simp at hm

/-- C8 (amended): if the underlying read operation errors, the
encoder fails, rejecting with the host-reported error object itself,
not wrapped in the encoder's error kind. -/
theorem read_error_propagates (ev : Nat) :
    fileToGenerativePartOutcome (.readError ev) = .error (.hostEvent ev) := rfl

end H4x
